import Mathlib

/-!
Verification development for the Telnet protocol engine
(protocol FSM, Q-Method negotiation, stream adapter) of this repository.

The definitions below are a shallow embedding of the C++ sources
`net.telnet-protocol_fsm-impl.cpp`, `net.telnet-stream-impl.cpp` and
`net.telnet-stream-async-impl.cpp` (version 0.5.7, the newer of the two
source versions).  Bytes are modelled as `Nat` with their concrete wire
values; option ids are `Nat`; the per-option RFC 1143 status database and
the option descriptor/registry are not present in the sources (only their
callers are), so those two collaborators are modelled from the spec, as
marked in their doc comments.
-/

/-- Telnet command byte values, from the data model (`IAC`=255, `WILL`=251,
`WONT`=252, `DO`=253, `DONT`=254, `SB`=250, `SE`=240, `NOP`=241, `DM`=242,
`BRK`=243, `IP`=244, `AO`=245, `AYT`=246, `EC`=247, `EL`=248, `GA`=249,
`EOR`=239). -/
def IAC : Nat := 255
def WILL : Nat := 251
def WONT : Nat := 252
def DO : Nat := 253
def DONT : Nat := 254
def SB : Nat := 250
def SE : Nat := 240
def NOPB : Nat := 241
def DM : Nat := 242
def BRK : Nat := 243
def IP : Nat := 244
def AO : Nat := 245
def AYT : Nat := 246
def EC : Nat := 247
def EL : Nat := 248
def GA : Nat := 249
def EOR : Nat := 239

/-- Negotiation direction: `WILL`/`WONT` speak about remote behavior,
`DO`/`DONT` about local behavior. -/
inductive Dir where
  | local_
  | remote
deriving DecidableEq, Repr

/-- Error codes and processing signals of the engine (`telnet::error` and
`telnet::processing_signal`), collapsed into one inductive since both travel
through the same `std::error_code` channel. -/
inductive ProcCode where
  | endOfLine
  | carriageReturn
  | dataMark
  | goAhead
  | endOfRecord
  | eraseCharacter
  | eraseLine
  | abortOutput
  | interruptProcess
  | telnetBreak
  | protocolViolation
  | invalidCommand
  | invalidSubnegotiation
  | subnegotiationOverflow
  | optionNotAvailable
  | invalidNegotiation
  | ignoredGoAhead
  | negotiationQueueError
  | internalError
deriving DecidableEq, Repr

/-- RFC 1143 Q-Method state of one option in one direction. -/
inductive QState where
  | no
  | wantyes
  | wantno
  | yes
deriving DecidableEq, Repr

/-- Modelled from the spec: the per-direction Q-Method status pair
(state, queued_bit) of `OptionStatusDB` (the status-database partition is not
among the source files; only the FSM that drives it is).  `queued = true`
models `queued_bit = OPPOSITE`, `queued = false` models `EMPTY`. -/
structure DirStatus where
  state : QState
  queued : Bool
deriving DecidableEq, Repr

/-- Modelled from the spec: both directions of one option's Q-Method status. -/
structure OptionStatus where
  loc : DirStatus
  rem : DirStatus
deriving DecidableEq, Repr

/-- The default (all `NO`/`EMPTY`) status. -/
def OptionStatus.initial : OptionStatus :=
  ⟨⟨QState.no, false⟩, ⟨QState.no, false⟩⟩

/-- Select one direction's status pair. -/
def OptionStatus.dir (s : OptionStatus) : Dir → DirStatus
  | Dir.local_ => s.loc
  | Dir.remote => s.rem

/-- Replace one direction's status pair. -/
def OptionStatus.setDir (s : OptionStatus) (d : Dir) (v : DirStatus) : OptionStatus :=
  match d with
  | Dir.local_ => { s with loc := v }
  | Dir.remote => { s with rem := v }

/-- Modelled from the spec: `status(id).enabled(dir)` predicate (state `YES`). -/
def DirStatus.enabled (s : DirStatus) : Bool := s.state = QState.yes

/-- Modelled from the spec: `status(id).disabled(dir)` predicate (state `NO`). -/
def DirStatus.disabled (s : DirStatus) : Bool := s.state = QState.no

/-- Modelled from the spec: `pending_enable(dir)` predicate (state `WANTYES`). -/
def DirStatus.pendingEnable (s : DirStatus) : Bool := s.state = QState.wantyes

/-- Modelled from the spec: `pending_disable(dir)` predicate (state `WANTNO`). -/
def DirStatus.pendingDisable (s : DirStatus) : Bool := s.state = QState.wantno

/-- Modelled from the spec: `queued(dir)` predicate (queued_bit `OPPOSITE`). -/
def DirStatus.isQueued (s : DirStatus) : Bool := s.queued

/-- Modelled from the spec: `enable(dir)` transition (state becomes `YES`). -/
def DirStatus.enable (s : DirStatus) : DirStatus := { s with state := QState.yes }

/-- Modelled from the spec: `disable(dir)` transition (state becomes `NO`). -/
def DirStatus.disable (s : DirStatus) : DirStatus := { s with state := QState.no }

/-- Modelled from the spec: `pend_enable(dir)` transition (state `WANTYES`). -/
def DirStatus.pendEnable (s : DirStatus) : DirStatus := { s with state := QState.wantyes }

/-- Modelled from the spec: `pend_disable(dir)` transition (state `WANTNO`). -/
def DirStatus.pendDisable (s : DirStatus) : DirStatus := { s with state := QState.wantno }

/-- Modelled from the spec: `enqueue(dir)` transition; fails with
`negotiation_queue_error` if queued_bit is already `OPPOSITE`. -/
def DirStatus.push (s : DirStatus) : DirStatus × Option ProcCode :=
  if s.queued then (s, some ProcCode.negotiationQueueError)
  else ({ s with queued := true }, none)

/-- Modelled from the spec: `dequeue(dir)` transition (queued_bit `EMPTY`). -/
def DirStatus.pop (s : DirStatus) : DirStatus := { s with queued := false }

/-- Modelled from the spec: the immutable option descriptor: per-option
capabilities supports-local, supports-remote, supports-subnegotiation and
max-subnegotiation-size (the options partition is not among the source
files). -/
structure OptionDesc where
  id : Nat
  supportsLocal : Bool
  supportsRemote : Bool
  supportsSubneg : Bool
  maxSubnegSize : Nat
deriving DecidableEq, Repr

/-- `option::supports(direction)`. -/
def OptionDesc.supports (d : OptionDesc) : Dir → Bool
  | Dir.local_ => d.supportsLocal
  | Dir.remote => d.supportsRemote

/-- Modelled from the spec: the descriptor `upsert_default` inserts for an
unregistered option: all-`false` capabilities. -/
def defaultOptionDesc (i : Nat) : OptionDesc :=
  ⟨i, false, false, false, 0⟩

/-- Modelled from the spec: the option registry, a total mapping from option
identifier to optional option descriptor. -/
def OptionRegistry : Type := Nat → Option OptionDesc

/-- `registry.upsert(id)`: idempotent insert of a defaulted descriptor,
returning the descriptor now present. -/
def registryUpsert (r : OptionRegistry) (i : Nat) : OptionRegistry × OptionDesc :=
  match r i with
  | some d => (r, d)
  | none => (fun j => if j = i then some (defaultOptionDesc i) else r j, defaultOptionDesc i)

/-- Modelled from the spec: the option status database, one `OptionStatus`
per option id (both directions tracked independently).  `MAX_OPTION_COUNT`
is 256: option identifiers are 8-bit values in [0, 255]. -/
def StatusDB : Type := Nat → OptionStatus

def MAX_OPTION_COUNT : Nat := 256

/-- Pointwise update of the status database at one id. -/
def dbSet (db : StatusDB) (i : Nat) (v : OptionStatus) : StatusDB :=
  fun j => if j = i then v else db j

/-- `OptionStatus::is_enabled()`: the option is enabled in either direction
(used by the subnegotiation path of the FSM). -/
def OptionStatus.isEnabled (s : OptionStatus) : Bool :=
  s.loc.enabled || s.rem.enabled

/-- `OptionStatus::local_enabled()`. -/
def OptionStatus.localEnabled (s : OptionStatus) : Bool := s.loc.enabled

/-- `OptionStatus::remote_enabled()`. -/
def OptionStatus.remoteEnabled (s : OptionStatus) : Bool := s.rem.enabled

/-- The seven parser states of `ProtocolFSM` (`ProtocolState`). -/
inductive PState where
  | normal
  | hasCR
  | hasIAC
  | optNeg
  | subnegOption
  | subneg
  | subnegIAC
deriving DecidableEq, Repr

/-- A wire negotiation response produced by the FSM:
`NegotiationResponse{direction, enable, option id}`. -/
structure NegResponse where
  dir : Dir
  enable : Bool
  opt : Nat
deriving DecidableEq, Repr

/-- An application-handler event carried in a `ProcessingReturnVariant`
(the `tagged_awaitable` returned by `handle_enablement` /
`handle_disablement`). -/
inductive HandlerEvent where
  | enablement (opt : Nat) (d : Dir)
  | disablement (opt : Nat) (d : Dir)
deriving DecidableEq, Repr

/-- A completed subnegotiation bundle (`SubnegotiationAwaitable`): either the
FSM delegated the buffer to the user handler, or (for `STATUS`) it computed
the reply payload internally. -/
inductive SubnegEvent where
  | delegated (opt : Nat) (buffer : List Nat)
  | internalReply (opt : Nat) (payload : List Nat)
deriving DecidableEq, Repr

/-- `ProcessingReturnVariant`: optional outbound reaction from `process_byte`. -/
inductive PRV where
  | negotiation (r : NegResponse)
  | ayt (s : List Nat)
  | subnegotiation (e : SubnegEvent)
  | handler (ev : HandlerEvent) (neg : Option NegResponse)
deriving DecidableEq, Repr

/-- The protocol FSM: parser state, transient command/option slots, the
subnegotiation buffer, plus the status database and the (mutable, for
`upsert`) registry it owns/references, and the configured `AYT` response. -/
structure FSM where
  state : PState
  currentCommand : Option Nat
  currentOption : Option OptionDesc
  subnegBuffer : List Nat
  statusDB : StatusDB
  registry : OptionRegistry
  aytResponse : List Nat

/-- `ProtocolFSM::change_state`: transient slots are cleared on transition
back to `Normal`. -/
def FSM.changeState (f : FSM) (next : PState) : FSM :=
  if next = PState.normal then
    { f with state := next, currentCommand := none, currentOption := none, subnegBuffer := [] }
  else
    { f with state := next }

/-- `ProtocolFSM::make_negotiation_command`. -/
def makeNegotiationCommand (d : Dir) (enable : Bool) : Nat :=
  match d with
  | Dir.remote => if enable then DO else DONT
  | Dir.local_ => if enable then WILL else WONT

/-- Encoding of a negotiation response on the wire:
`IAC <cmd> <id>` (from `async_write_negotiation`). -/
def encodeNegotiation (r : NegResponse) : List Nat :=
  [IAC, makeNegotiationCommand r.dir r.enable, r.opt]

/-- The result triple of `process_byte`: (signal/error, forward flag,
optional outbound reaction). -/
structure StepOut where
  code : Option ProcCode
  forward : Bool
  response : Option PRV
deriving DecidableEq, Repr

/-- `ProtocolFSM::handle_state_normal`. -/
def handleStateNormal (f : FSM) (b : Nat) : StepOut × FSM :=
  if b = IAC then
    (⟨none, false, none⟩, f.changeState PState.hasIAC)
  else if b = 13 && !(f.statusDB 0).rem.enabled then
    (⟨none, false, none⟩, f.changeState PState.hasCR)
  else if b = 0 then
    (⟨none, false, none⟩, f)
  else
    (⟨none, true, none⟩, f)

/-- `ProtocolFSM::handle_state_has_cr`. -/
def handleStateHasCR (f : FSM) (b : Nat) : StepOut × FSM :=
  if b = 10 then
    (⟨some ProcCode.endOfLine, true, none⟩, f.changeState PState.normal)
  else if b = 0 then
    (⟨some ProcCode.carriageReturn, false, none⟩, f.changeState PState.normal)
  else if b = IAC then
    (⟨some ProcCode.carriageReturn, false, none⟩, f.changeState PState.hasIAC)
  else
    (⟨some ProcCode.carriageReturn, true, none⟩, f.changeState PState.normal)

/-- `ProtocolFSM::handle_state_iac`: dispatch on the command byte following
`IAC`.  The `suppress_go_ahead` option id is 3, `end_of_record` is 25. -/
def handleStateIAC (f : FSM) (b : Nat) : StepOut × FSM :=
  if b = IAC then
    (⟨none, true, none⟩, f.changeState PState.normal)
  else
    let f1 := { f with currentCommand := some b }
    let next : PState :=
      if b = WILL || b = WONT || b = DO || b = DONT then PState.optNeg
      else if b = SB then PState.subnegOption
      else PState.normal
    let code : Option ProcCode :=
      if b = DM then some ProcCode.dataMark
      else if b = GA then
        (if (f.statusDB 3).rem.enabled then none else some ProcCode.goAhead)
      else if b = EOR then
        (if (f.statusDB 25).rem.enabled then some ProcCode.endOfRecord else none)
      else if b = EC then some ProcCode.eraseCharacter
      else if b = EL then some ProcCode.eraseLine
      else if b = AO then some ProcCode.abortOutput
      else if b = IP then some ProcCode.interruptProcess
      else if b = BRK then some ProcCode.telnetBreak
      else none
    let resp : Option PRV := if b = AYT then some (PRV.ayt f.aytResponse) else none
    (⟨code, false, resp⟩, f1.changeState next)

/-- The outbound reaction of one registered-option negotiation branch:
no response; a bare negotiation response (with its enable flag); a handler
event with no frame; or a handler event combined with an agreement frame. -/
inductive NegoReact where
  | noResp
  | bare (enable : Bool)
  | handlerOnly (enable : Bool)
  | handlerFrame (enable : Bool)
deriving DecidableEq, Repr

/-- The per-direction negotiation branch cascade of
`ProtocolFSM::handle_state_option_negotiation` for a registered option:
given the request kind, the descriptor's support for the direction and the
current `DirStatus`, yield the new `DirStatus` and the outbound reaction.
Mirrors lines 450-539 of the source. -/
def negotiateDir (reqEnable supports : Bool) (s : DirStatus) :
    DirStatus × NegoReact :=
  if (reqEnable && s.enabled) || (!reqEnable && s.disabled) then
    (s, NegoReact.noResp)
  else if reqEnable then
    if s.pendingEnable then
      if s.isQueued then (s.pop.pendDisable, NegoReact.bare false)
      else (s.enable, NegoReact.handlerOnly true)
    else if s.pendingDisable then
      if s.isQueued then (s.pop.enable, NegoReact.handlerOnly true)
      else (s.disable, NegoReact.noResp)
    else if supports then
      (s.enable, NegoReact.handlerFrame true)
    else
      (s, NegoReact.bare false)
  else
    if s.pendingDisable then
      if s.isQueued then (s.pop.pendEnable, NegoReact.bare true)
      else (s.disable, NegoReact.noResp)
    else if s.pendingEnable then
      if s.isQueued then (s.pop.disable, NegoReact.noResp)
      else (s.disable, NegoReact.noResp)
    else
      (s.disable, NegoReact.handlerFrame false)

/-- Assemble the `ProcessingReturnVariant` of the registered-option branch of
`handle_state_option_negotiation` from a `NegoReact` reaction. -/
def negotiationPRV (d : Dir) (opt : Nat) : NegoReact → Option PRV
  | NegoReact.noResp => none
  | NegoReact.bare e => some (PRV.negotiation ⟨d, e, opt⟩)
  | NegoReact.handlerOnly e =>
      some (PRV.handler
        (if e then HandlerEvent.enablement opt d else HandlerEvent.disablement opt d) none)
  | NegoReact.handlerFrame e =>
      some (PRV.handler
        (if e then HandlerEvent.enablement opt d else HandlerEvent.disablement opt d)
        (some ⟨d, e, opt⟩))

/-- `ProtocolFSM::handle_state_option_negotiation`: the byte is the option
id.  Direction derives from the stashed command (`WILL`/`WONT` are remote).
Registered options run the Q-Method cascade on that direction's status;
unregistered enable requests are refused with a disable frame, unregistered
disable requests are ignored; the status database is untouched for
unregistered ids.  Always returns to `Normal`. -/
def handleStateOptNeg (f : FSM) (b : Nat) : StepOut × FSM :=
  match f.currentCommand with
  | none => (⟨none, false, none⟩, f.changeState PState.normal)
  | some cmd =>
    let d := if cmd = WILL || cmd = WONT then Dir.remote else Dir.local_
    let reqEnable := cmd = DO || cmd = WILL
    match f.registry b with
    | some desc =>
        let st := (f.statusDB b).dir d
        let (st', react) := negotiateDir reqEnable (desc.supports d) st
        let f1 := { f with
          currentOption := some desc,
          statusDB := dbSet f.statusDB b ((f.statusDB b).setDir d st') }
        (⟨none, false, negotiationPRV d b react⟩, f1.changeState PState.normal)
    | none =>
        let resp := if reqEnable then some (PRV.negotiation ⟨d, false, b⟩) else none
        (⟨none, false, resp⟩, f.changeState PState.normal)

/-- `ProtocolFSM::handle_state_subnegotiation_option`: look the option up,
memoize a defaulted descriptor when absent, reserve the buffer and move to
`Subnegotiation`. -/
def handleStateSubnegOption (f : FSM) (b : Nat) : StepOut × FSM :=
  let (reg', desc) := registryUpsert f.registry b
  let f1 := { f with registry := reg', currentOption := some desc }
  (⟨none, false, none⟩, f1.changeState PState.subneg)

/-- `ProtocolFSM::handle_status_subnegotiation` (RFC 859), the newer source
version: an empty buffer is an invalid subnegotiation; `IS` (0) is delegated
to the user handler when `STATUS` is remotely enabled; `SEND` (1) builds an
`IS` payload from the status database when `STATUS` is locally enabled:
for each option id in [0, 256), a locally-enabled option contributes
`WILL id` and a remotely-enabled option contributes `DO id`, with id bytes
equal to `IAC` (255) or `SE` (240) doubled.  The `STATUS` option id is 5. -/
def statusPayloadChunk (db : StatusDB) (i : Nat) : List Nat :=
  (if (db i).localEnabled then
     [WILL] ++ (if i = IAC || i = SE then [i] else []) ++ [i]
   else []) ++
  (if (db i).remoteEnabled then
     [DO] ++ (if i = IAC || i = SE then [i] else []) ++ [i]
   else [])

/-- The full `IS` payload the `SEND` branch constructs: byte `IS` (0)
followed by the per-id chunks for ids 0, 1, ..., 255 in order. -/
def statusSendPayload (db : StatusDB) : List Nat :=
  0 :: ((List.range MAX_OPTION_COUNT).flatMap (statusPayloadChunk db))

def handleStatusSubnegotiation (db : StatusDB) (opt : Nat) (buffer : List Nat) :
    SubnegEvent :=
  match buffer with
  | [] => SubnegEvent.internalReply opt []
  | b :: _ =>
    if b = 0 then
      if (db 5).remoteEnabled then SubnegEvent.delegated opt buffer
      else SubnegEvent.internalReply opt []
    else if b = 1 then
      if (db 5).localEnabled then SubnegEvent.internalReply opt (statusSendPayload db)
      else SubnegEvent.internalReply opt []
    else
      SubnegEvent.internalReply opt []

/-- `ProtocolFSM::handle_state_subnegotiation`: `IAC` switches to
`SubnegotiationIAC`; any other byte overflows (error and reset to `Normal`)
when the buffer has reached a nonzero max size, and is appended otherwise. -/
def handleStateSubneg (f : FSM) (b : Nat) : StepOut × FSM :=
  match f.currentOption with
  | none =>
      (⟨some ProcCode.protocolViolation, false, none⟩, f.changeState PState.normal)
  | some desc =>
    if b = IAC then
      (⟨none, false, none⟩, f.changeState PState.subnegIAC)
    else if desc.maxSubnegSize > 0 && f.subnegBuffer.length ≥ desc.maxSubnegSize then
      (⟨some ProcCode.subnegotiationOverflow, false, none⟩, f.changeState PState.normal)
    else
      (⟨none, false, none⟩, { f with subnegBuffer := f.subnegBuffer ++ [b] })

/-- `ProtocolFSM::handle_state_subnegotiation_iac`: `SE` completes the
subnegotiation (delivering the buffer when the option supports
subnegotiation and is enabled, with `STATUS` handled internally); any other
byte first checks the size bound once, then appends `IAC` and, for a stray
non-`IAC` byte, the byte itself, returning to `Subnegotiation`. -/
def handleStateSubnegIAC (f : FSM) (b : Nat) : StepOut × FSM :=
  match f.currentOption with
  | none =>
      (⟨some ProcCode.protocolViolation, false, none⟩, f.changeState PState.normal)
  | some desc =>
    if b = SE then
      let resp :=
        if desc.supportsSubneg && (f.statusDB desc.id).isEnabled then
          if desc.id = 5 then
            some (PRV.subnegotiation (handleStatusSubnegotiation f.statusDB desc.id f.subnegBuffer))
          else
            some (PRV.subnegotiation (SubnegEvent.delegated desc.id f.subnegBuffer))
        else none
      (⟨none, false, resp⟩, f.changeState PState.normal)
    else if desc.maxSubnegSize > 0 && f.subnegBuffer.length ≥ desc.maxSubnegSize then
      (⟨some ProcCode.subnegotiationOverflow, false, none⟩, f.changeState PState.normal)
    else if b = IAC then
      (⟨none, false, none⟩,
        ({ f with subnegBuffer := f.subnegBuffer ++ [IAC] }).changeState PState.subneg)
    else
      (⟨none, false, none⟩,
        ({ f with subnegBuffer := f.subnegBuffer ++ [IAC, b] }).changeState PState.subneg)

/-- `ProtocolFSM::process_byte`: dispatch on the current parser state. -/
def processByte (f : FSM) (b : Nat) : StepOut × FSM :=
  match f.state with
  | PState.normal => handleStateNormal f b
  | PState.hasCR => handleStateHasCR f b
  | PState.hasIAC => handleStateIAC f b
  | PState.optNeg => handleStateOptNeg f b
  | PState.subnegOption => handleStateSubnegOption f b
  | PState.subneg => handleStateSubneg f b
  | PState.subnegIAC => handleStateSubnegIAC f b

/-- Process a list of bytes in sequence, collecting every step's output. -/
def processBytes (f : FSM) : List Nat → FSM × List StepOut
  | [] => (f, [])
  | b :: rest =>
    let (out, f1) := processByte f b
    let (f2, outs) := processBytes f1 rest
    (f2, out :: outs)

/-- An FSM at connection start: parser in `Normal`, empty transient slots,
the given registry and an all-`NO`/`EMPTY` status database. -/
def initFSM (reg : OptionRegistry) (db : StatusDB) (ayt : List Nat) : FSM :=
  ⟨PState.normal, none, none, [], db, reg, ayt⟩

/-- `ProtocolFSM::request_option`: the outbound application "request option"
operation.  Returns the (possibly updated) FSM, the error code, and the
optional negotiation response to write.  Mirrors the branch cascade of
lines 51-115 of the source: unregistered options fail with
`option_not_available`; the six Q-Method states are handled in the source's
order; any status matching none of the predicates falls through to
`protocol_violation` with the status left unchanged. -/
def requestOption (f : FSM) (opt : Nat) (d : Dir) :
    FSM × Option ProcCode × Option NegResponse :=
  match f.registry opt with
  | none => (f, some ProcCode.optionNotAvailable, none)
  | some _ =>
    let s := (f.statusDB opt).dir d
    if s.enabled then
      (f, none, none)
    else if s.pendingEnable && !s.isQueued then
      (f, none, none)
    else if s.pendingEnable && s.isQueued then
      ({ f with statusDB := dbSet f.statusDB opt ((f.statusDB opt).setDir d s.pop) },
        none, none)
    else if s.pendingDisable && !s.isQueued then
      let (s', ec) := s.push
      match ec with
      | some e => (f, some e, none)
      | none =>
          ({ f with statusDB := dbSet f.statusDB opt ((f.statusDB opt).setDir d s') },
            none, none)
    else if s.pendingDisable && s.isQueued then
      (f, none, none)
    else if s.disabled then
      ({ f with statusDB := dbSet f.statusDB opt ((f.statusDB opt).setDir d s.pendEnable) },
        none, some ⟨d, true, opt⟩)
    else
      (f, some ProcCode.protocolViolation, none)

/-- `ProtocolFSM::disable_option`: the outbound application "disable option"
operation, symmetric to `requestOption`; in the `YES` state it additionally
carries the handler's disablement awaitable. -/
def disableOption (f : FSM) (opt : Nat) (d : Dir) :
    FSM × Option ProcCode × Option NegResponse × Option HandlerEvent :=
  match f.registry opt with
  | none => (f, some ProcCode.optionNotAvailable, none, none)
  | some _ =>
    let s := (f.statusDB opt).dir d
    if s.disabled then
      (f, none, none, none)
    else if s.pendingDisable && !s.isQueued then
      (f, none, none, none)
    else if s.pendingDisable && s.isQueued then
      ({ f with statusDB := dbSet f.statusDB opt ((f.statusDB opt).setDir d s.pop) },
        none, none, none)
    else if s.pendingEnable && !s.isQueued then
      let (s', ec) := s.push
      match ec with
      | some e => (f, some e, none, none)
      | none =>
          ({ f with statusDB := dbSet f.statusDB opt ((f.statusDB opt).setDir d s') },
            none, none, none)
    else if s.pendingEnable && s.isQueued then
      (f, none, none, none)
    else if s.enabled then
      ({ f with statusDB := dbSet f.statusDB opt ((f.statusDB opt).setDir d s.pendDisable) },
        none, some ⟨d, false, opt⟩, some (HandlerEvent.disablement opt d))
    else
      (f, some ProcCode.protocolViolation, none, none)

/-- The three states of the urgent-data tracker
(`stream::context_type::urgent_data_tracker`). -/
inductive UrgentState where
  | noUrgent
  | hasUrgent
  | unexpectedDataMark
deriving DecidableEq, Repr

/-- `urgent_data_tracker::saw_urgent()`: the transition together with the
code it logs (`data_mark` for a late notification, `internal_error` for a
reentrant urgent-wait, in which case no transition happens).  The CAS loop
of the source degenerates to a single transition in this sequential model. -/
def sawUrgent : UrgentState → UrgentState × Option ProcCode
  | UrgentState.noUrgent => (UrgentState.hasUrgent, none)
  | UrgentState.unexpectedDataMark => (UrgentState.noUrgent, some ProcCode.dataMark)
  | UrgentState.hasUrgent => (UrgentState.hasUrgent, some ProcCode.internalError)

/-- `urgent_data_tracker::saw_data_mark()`: the transition together with the
code it logs (`data_mark` when the DM precedes the notification and for a
repeated DM, in which case no transition happens). -/
def sawDataMark : UrgentState → UrgentState × Option ProcCode
  | UrgentState.hasUrgent => (UrgentState.noUrgent, none)
  | UrgentState.noUrgent => (UrgentState.unexpectedDataMark, some ProcCode.dataMark)
  | UrgentState.unexpectedDataMark => (UrgentState.unexpectedDataMark, some ProcCode.dataMark)

/-- The tracker's boolean conversion used by the forwarding rule and the
urgent-wait guard: true while urgent data is pending in the byte stream. -/
def urgentActive : UrgentState → Bool
  | UrgentState.hasUrgent => true
  | _ => false

/-- Whether `BINARY` (option id 0) is locally enabled in the FSM's status
database (`fsm_.enabled(option::id_num::binary, negotiation_direction::local)`). -/
def FSM.binaryLocal (f : FSM) : Bool := (f.statusDB 0).loc.enabled

/-- `stream::escape_telnet_output`, the per-byte loop of lines 109-121 of
`net.telnet-stream-impl.cpp`: prepend `CR` before `LF` when `BINARY` is not
locally enabled; emit the byte; double `IAC`; append `NUL` after `CR` when
`BINARY` is not locally enabled. -/
def escapeTelnetOutput (binaryLocal : Bool) : List Nat → List Nat
  | [] => []
  | b :: rest =>
    (if b = 10 && !binaryLocal then [13] else []) ++
    [b] ++
    (if b = IAC then [b] else if b = 13 && !binaryLocal then [0] else []) ++
    escapeTelnetOutput binaryLocal rest

/-- One transport-level write the adapter performs, or a suspension point
awaiting an application handler. -/
inductive WireItem where
  | write (urgent : Bool) (bytes : List Nat)
  | awaitHandler (ev : HandlerEvent)
  | awaitSubneg (opt : Nat) (buffer : List Nat)
deriving DecidableEq, Repr

/-- `stream::async_send_synch`: three `NUL` sends with the middle one
out-of-band, followed by `async_write_command(dm)` which writes `IAC DM`. -/
def synchWire : List WireItem :=
  [WireItem.write false [0], WireItem.write true [0], WireItem.write false [0],
   WireItem.write false [IAC, DM]]

/-- `async_write_subnegotiation` framing: `IAC SB <id>`, the payload escaped
with `escape_telnet_output`, then `IAC SE`. -/
def subnegFrame (binaryLocal : Bool) (opt : Nat) (payload : List Nat) : List Nat :=
  [IAC, SB, opt] ++ escapeTelnetOutput binaryLocal payload ++ [IAC, SE]

/-- The wire activity of `input_processor::do_response` for one
`ProcessingReturnVariant`: a negotiation response is a 3-byte write; the
`AYT` string is a raw write; a subnegotiation bundle is awaited and, when
the FSM computed the reply internally and it is nonempty, written framed and
escaped; a handler event optionally writes its negotiation frame first and
then awaits the handler. -/
def responseWire (f : FSM) : PRV → List WireItem
  | PRV.negotiation r => [WireItem.write false (encodeNegotiation r)]
  | PRV.ayt s => [WireItem.write false s]
  | PRV.subnegotiation (SubnegEvent.delegated opt buf) => [WireItem.awaitSubneg opt buf]
  | PRV.subnegotiation (SubnegEvent.internalReply opt payload) =>
      if payload = [] then []
      else [WireItem.write false (subnegFrame f.binaryLocal opt payload)]
  | PRV.handler ev neg =>
      (match neg with
       | some r => [WireItem.write false (encodeNegotiation r)]
       | none => []) ++ [WireItem.awaitHandler ev]

/-- The stream context (`stream::context_type`): the raw inbound staging
buffer, the size of the outbound staging buffer, the deferred processing
signal and deferred transport error slots, the urgent-data state and the
wait-for-urgent-data outstanding flag. -/
structure StreamCtx where
  inputBuffer : List Nat
  outputSize : Nat
  deferredSignal : Option ProcCode
  deferredError : Option ProcCode
  urgent : UrgentState
  waitingForUrgent : Bool
deriving Repr

/-- `stream::launch_wait_for_urgent_data`: sets the outstanding flag; the
zero-byte OOB receive itself completes outside any single `read_some`, so
only the flag is observable here. -/
def launchWaitForUrgentData (c : StreamCtx) : StreamCtx :=
  { c with waitingForUrgent := true }

/-- How one `read_some` ends: a completion `(signal/error, byte count)`;
a return to the transport for more data (the staging buffer was exhausted
with nothing to deliver); or the unbounded re-entry the source performs
when the application window has zero length but staged data remains. -/
inductive ReadOutcome where
  | completed (code : Option ProcCode) (bytes : Nat)
  | needRead
  | stalled
deriving DecidableEq, Repr

/-- The full result of one modelled `read_some`: its outcome, the FSM and
context afterwards, the transport writes/awaits it performed in order, and
whether the `AO` branch was taken during processing. -/
structure RunResult where
  outcome : ReadOutcome
  fsm : FSM
  ctx : StreamCtx
  wire : List WireItem
  sawAO : Bool

/-- `input_processor::process_fsm_signals`: `carriage_return` inserts a
literal `CR` into the window; `erase_character` retracts the cursor by one
and `erase_line` resets it to the window start when the window is nonempty;
`data_mark` notifies the urgent tracker and relaunches the urgent wait; each
handled signal is cleared, anything else is passed through. -/
def processFsmSignals (code : Option ProcCode) (writePos : Nat) (c : StreamCtx) :
    Option ProcCode × Nat × StreamCtx :=
  if code = some ProcCode.carriageReturn then
    (none, writePos + 1, c)
  else if code = some ProcCode.eraseCharacter && writePos ≠ 0 then
    (none, writePos - 1, c)
  else if code = some ProcCode.eraseLine && writePos ≠ 0 then
    (none, 0, c)
  else if code = some ProcCode.dataMark then
    (none, writePos,
      launchWaitForUrgentData { c with urgent := (sawDataMark c.urgent).1 })
  else
    (code, writePos, c)

/-- The byte-consuming loop of
`input_processor::handle_processor_state_processing` (lines 417-462)
together with the loop exit code (lines 463-480) and
`process_fsm_signals`.  `remaining` is the unprocessed suffix of the staging
buffer, `writePos` the write-cursor offset into the application window of
size `n`, and `wire`/`sawAO` the accumulators.

The `AO` branch drains the outbound buffer, defers the `abort_output`
signal, consumes the processed bytes, launches the `Synch` send and
suspends; when the `Synch` write completes, the processing state re-enters,
exchanges the deferred signal and completes with it immediately — that
resumption is inlined here.  A response likewise consumes the processed
bytes, performs its wire activity and re-enters processing on the rest of
the buffer.  On a terminal signal the bytes up to and including the current
one are consumed and the operation completes; on exhausting the staging
buffer or filling the window, a deferred transport error (if any) is
reported, and a run that wrote nothing re-enters the transport-read path. -/
def procLoop (f : FSM) (c : StreamCtx) (remaining : List Nat)
    (writePos n : Nat) (wire : List WireItem) (sawAO : Bool) : RunResult :=
  match remaining with
  | [] =>
    -- Loop exhausted the staging buffer: consume everything processed,
    -- swap in any deferred transport error, and complete or re-enter.
    let c1 := { c with inputBuffer := [],
                       deferredError := none }
    let ec := c.deferredError
    if ec = none && writePos = 0 then
      RunResult.mk ReadOutcome.needRead f (launchWaitForUrgentData c1) wire sawAO
    else
      RunResult.mk (ReadOutcome.completed ec writePos) f c1 wire sawAO
  | b :: rest =>
    if writePos = n then
      -- Window full: exit the loop without touching this byte.
      let c1 := { c with inputBuffer := remaining, deferredError := none }
      let ec := c.deferredError
      if ec = none && writePos = 0 then
        RunResult.mk ReadOutcome.stalled f c1 wire sawAO
      else
        RunResult.mk (ReadOutcome.completed ec writePos) f c1 wire sawAO
    else
      let (out, f1) := processByte f b
      if out.code = some ProcCode.abortOutput then
        -- AO: drain the outbound buffer, defer the signal, consume through
        -- this byte, send the Synch; the resumed processing state exchanges
        -- the deferred signal and completes with it at the current count.
        let c1 := { c with outputSize := 0, deferredSignal := none,
                           inputBuffer := rest }
        RunResult.mk (ReadOutcome.completed (some ProcCode.abortOutput) writePos)
          f1 c1 (wire ++ synchWire) true
      else
        let (code1, writePos1, c1) := processFsmSignals out.code writePos c
        -- Forwarded bytes are written to the window unless urgent data is
        -- being discarded.
        let writePos2 :=
          if out.forward && !(urgentActive c1.urgent) then writePos1 + 1 else writePos1
        match code1 with
        | some ec =>
            -- Terminal signal or error: consume through this byte, complete.
            RunResult.mk (ReadOutcome.completed (some ec) writePos2) f1
              { c1 with inputBuffer := rest } wire sawAO
        | none =>
          match out.response with
          | some r =>
              -- Consume through this byte, perform the response's wire
              -- activity, and resume processing on the rest of the buffer.
              procLoop f1 { c1 with inputBuffer := rest } rest writePos2 n
                (wire ++ responseWire f1 r) sawAO
          | none =>
              procLoop f1 c1 rest writePos2 n wire sawAO

/-- One `read_some` call driven from the current staging buffer
(`input_processor` states `initializing` → `reading` → `processing`): an
empty staging buffer reports a deferred transport error immediately or
returns to the transport for the next read; otherwise the processing state
exchanges the deferred processing signal (completing with it at once when
one was left behind) and runs the byte loop. -/
def readSome (f : FSM) (c : StreamCtx) (n : Nat) : RunResult :=
  if c.inputBuffer = [] then
    match c.deferredError with
    | some e =>
        RunResult.mk (ReadOutcome.completed (some e) 0) f
          { c with deferredError := none } [] false
    | none =>
        RunResult.mk ReadOutcome.needRead f (launchWaitForUrgentData c) [] false
  else
    match c.deferredSignal with
    | some sig =>
        RunResult.mk (ReadOutcome.completed (some sig) 0) f
          { c with deferredSignal := none } [] false
    | none =>
        procLoop f c c.inputBuffer 0 n [] false

/-! ## Helper lemmas -/

theorem dbSet_same (db : StatusDB) (i : Nat) (v : OptionStatus) : dbSet db i v i = v := by
  simp [dbSet]

theorem dbSet_other (db : StatusDB) (i j : Nat) (v : OptionStatus) (h : j ≠ i) :
    dbSet db i v j = db j := by
  simp [dbSet, h]

theorem setDir_dir_same (s : OptionStatus) (d : Dir) (v : DirStatus) :
    (s.setDir d v).dir d = v := by
  cases d <;> rfl

theorem changeState_statusDB (f : FSM) (st : PState) :
    (f.changeState st).statusDB = f.statusDB := by
  unfold FSM.changeState
  split <;> rfl

theorem changeState_registry (f : FSM) (st : PState) :
    (f.changeState st).registry = f.registry := by
  unfold FSM.changeState
  split <;> rfl

/-! ## C7: the urgent-data tracker's transition function -/

/-- Claim C7: the urgent-data tracker implements exactly the three-state
transition function: `saw_urgent` maps `NoUrgent` to `HasUrgent`, maps
`UnexpectedDataMark` to `NoUrgent`, and in `HasUrgent` makes no transition
while reporting an internal error; `saw_data_mark` maps `HasUrgent` to
`NoUrgent`, maps `NoUrgent` to `UnexpectedDataMark`, and in
`UnexpectedDataMark` stays in `UnexpectedDataMark` (repeated DM, logged,
not reset). -/
theorem c7_urgent_tracker_transitions :
    sawUrgent UrgentState.noUrgent = (UrgentState.hasUrgent, none) ∧
    sawUrgent UrgentState.unexpectedDataMark =
      (UrgentState.noUrgent, some ProcCode.dataMark) ∧
    sawUrgent UrgentState.hasUrgent =
      (UrgentState.hasUrgent, some ProcCode.internalError) ∧
    sawDataMark UrgentState.hasUrgent = (UrgentState.noUrgent, none) ∧
    sawDataMark UrgentState.noUrgent =
      (UrgentState.unexpectedDataMark, some ProcCode.dataMark) ∧
    sawDataMark UrgentState.unexpectedDataMark =
      (UrgentState.unexpectedDataMark, some ProcCode.dataMark) := by
  decide

/-! ## C1: the STATUS SEND reply payload -/

/-- A status database in which exactly the `STATUS` option (id 5) is locally
enabled — the minimal database on which the `SEND` branch runs at all, since
it requires `STATUS` locally enabled. -/
def c1DB : StatusDB := fun i =>
  if i = 5 then ⟨⟨QState.yes, false⟩, ⟨QState.no, false⟩⟩ else OptionStatus.initial

set_option maxRecDepth 4096 in
/-- Claim C1 (evaluation at the failing input): on a database whose only
enabled option is `STATUS` itself (locally), the `SEND` branch produces the
payload `IS WILL 5` — the enumeration contains `WILL 5` for the `STATUS`
option, although the claim (and the source's own doc comment) requires the
`STATUS` option to be omitted from the enumeration. -/
theorem c1_status_send_includes_status_itself :
    handleStatusSubnegotiation c1DB 5 [1] =
      SubnegEvent.internalReply 5 [0, WILL, 5] := by
  decide

/-! ## C3: the subnegotiation size bound -/

/-- A registered option supporting subnegotiation with max size 1. -/
def c3Desc : OptionDesc := ⟨24, false, true, true, 1⟩

/-- An FSM inside a subnegotiation of that option with an empty buffer. -/
def c3FSM : FSM :=
  ⟨PState.subneg, some SB, some c3Desc, [],
   fun i => if i = 24 then ⟨⟨QState.no, false⟩, ⟨QState.yes, false⟩⟩ else OptionStatus.initial,
   fun i => if i = 24 then some c3Desc else none, []⟩

/-- Claim C3 is false as stated: with max-subnegotiation-size 1 and an empty
buffer, processing `IAC` then a stray byte 0x61 in the subnegotiation takes
the recovery path, appends `IAC` plus the stray byte after a single size
check, and leaves the buffer at length 2 — beyond the cap of 1 — without any
`subnegotiation_overflow` error. -/
theorem c3_counterexample_buffer_exceeds_cap :
    (processBytes c3FSM [IAC, 97]).1.subnegBuffer = [IAC, 97] ∧
    (processBytes c3FSM [IAC, 97]).2 =
      [⟨none, false, none⟩, ⟨none, false, none⟩] ∧
    c3Desc.maxSubnegSize = 1 := by
  refine ⟨rfl, rfl, rfl⟩


/-- The buffer discipline of the parser: outside the two subnegotiation
states the buffer is empty, and while a current option with a nonzero max
size is set, the buffer holds at most one byte more than that max. -/
def SubnegInv (f : FSM) : Prop :=
  (f.state = PState.subneg ∨ f.state = PState.subnegIAC ∨ f.subnegBuffer = []) ∧
  (match f.currentOption with
   | some dsc => dsc.maxSubnegSize = 0 ∨ f.subnegBuffer.length ≤ dsc.maxSubnegSize + 1
   | none => True)

theorem subnegInv_changeState_normal (f : FSM) :
    SubnegInv (f.changeState PState.normal) := by
  simp [SubnegInv, FSM.changeState]

theorem subnegInv_of_empty (g : FSM) (h : g.subnegBuffer = []) : SubnegInv g := by
  refine ⟨Or.inr (Or.inr h), ?_⟩
  cases g.currentOption <;> simp [h]

theorem changeState_subnegBuffer_empty (f : FSM) (st : PState)
    (h : f.subnegBuffer = []) : (f.changeState st).subnegBuffer = [] := by
  unfold FSM.changeState
  split <;> simp [h]

theorem changeState_ne (f : FSM) (st : PState) (h : ¬ st = PState.normal) :
    f.changeState st = { f with state := st } := by
  unfold FSM.changeState
  rw [if_neg h]

/-- Preservation of the buffer discipline by a single `process_byte` step. -/
theorem subnegInv_step (f : FSM) (b : Nat) (h : SubnegInv f) :
    SubnegInv (processByte f b).2 := by
  obtain ⟨h1, h2⟩ := h
  cases hf : f.state
  all_goals simp only [processByte, hf]
  · -- normal
    have he : f.subnegBuffer = [] := by simpa [hf] using h1
    unfold handleStateNormal
    split_ifs <;>
      first
      | exact subnegInv_of_empty _ (changeState_subnegBuffer_empty _ _ he)
      | exact subnegInv_of_empty _ he
  · -- hasCR
    have he : f.subnegBuffer = [] := by simpa [hf] using h1
    unfold handleStateHasCR
    split_ifs <;>
      exact subnegInv_of_empty _ (changeState_subnegBuffer_empty _ _ he)
  · -- hasIAC
    have he : f.subnegBuffer = [] := by simpa [hf] using h1
    unfold handleStateIAC
    split
    · exact subnegInv_of_empty _ (changeState_subnegBuffer_empty _ _ he)
    · exact subnegInv_of_empty _ (changeState_subnegBuffer_empty _ _ he)
  · -- optNeg
    have he : f.subnegBuffer = [] := by simpa [hf] using h1
    unfold handleStateOptNeg
    rcases f.currentCommand with _ | cmd
    · exact subnegInv_of_empty _ (changeState_subnegBuffer_empty _ _ he)
    · simp only
      split <;> exact subnegInv_of_empty _ (changeState_subnegBuffer_empty _ _ he)
  · -- subnegOption
    have he : f.subnegBuffer = [] := by simpa [hf] using h1
    unfold handleStateSubnegOption
    exact subnegInv_of_empty _ (changeState_subnegBuffer_empty _ _ he)
  · -- subneg
    unfold handleStateSubneg
    rcases hc : f.currentOption with _ | dsc
    · exact subnegInv_changeState_normal f
    · simp only [hc] at h2
      simp only
      by_cases hiac : b = IAC
      · -- IAC: to subnegIAC, buffer and option unchanged
        rw [if_pos hiac, changeState_ne _ _ (by decide)]
        refine ⟨Or.inr (Or.inl rfl), ?_⟩
        simp only [hc]
        exact h2
      · rw [if_neg hiac]
        by_cases hover :
            (dsc.maxSubnegSize > 0 && f.subnegBuffer.length ≥ dsc.maxSubnegSize) = true
        · rw [if_pos hover]
          exact subnegInv_changeState_normal _
        · -- append one byte under the negated guard
          rw [if_neg hover]
          simp only [Bool.and_eq_true, decide_eq_true_eq, not_and, not_le] at hover
          refine ⟨Or.inl hf, ?_⟩
          simp only [hc, List.length_append, List.length_cons, List.length_nil]
          rcases Nat.eq_zero_or_pos dsc.maxSubnegSize with hz | hp
          · exact Or.inl hz
          · have hlt := hover hp
            exact Or.inr (by omega)
  · -- subnegIAC
    unfold handleStateSubnegIAC
    rcases hc : f.currentOption with _ | dsc
    · exact subnegInv_changeState_normal f
    · simp only [hc] at h2
      simp only
      by_cases hse : b = SE
      · rw [if_pos hse]
        exact subnegInv_changeState_normal _
      · rw [if_neg hse]
        by_cases hover :
            (dsc.maxSubnegSize > 0 && f.subnegBuffer.length ≥ dsc.maxSubnegSize) = true
        · rw [if_pos hover]
          exact subnegInv_changeState_normal _
        · rw [if_neg hover]
          simp only [Bool.and_eq_true, decide_eq_true_eq, not_and, not_le] at hover
          by_cases hiac : b = IAC
          · -- escaped IAC: append one byte, back to Subnegotiation
            rw [if_pos hiac, changeState_ne _ _ (by decide)]
            refine ⟨Or.inl rfl, ?_⟩
            simp only [hc, List.length_append, List.length_cons, List.length_nil]
            rcases Nat.eq_zero_or_pos dsc.maxSubnegSize with hz | hp
            · exact Or.inl hz
            · have hlt := hover hp
              exact Or.inr (by omega)
          · -- stray byte: append two bytes, back to Subnegotiation
            rw [if_neg hiac, changeState_ne _ _ (by decide)]
            refine ⟨Or.inl rfl, ?_⟩
            simp only [hc, List.length_append, List.length_cons, List.length_nil]
            rcases Nat.eq_zero_or_pos dsc.maxSubnegSize with hz | hp
            · exact Or.inl hz
            · have hlt := hover hp
              exact Or.inr (by omega)

/-- Claim C3 (amended): for an option whose descriptor carries a concrete
nonzero max-subnegotiation-size, (a) in the `Subnegotiation` state any
non-`IAC` byte arriving with the buffer already at or beyond the max yields
`subnegotiation_overflow` and resets the parser to `Normal`; (b) the same
holds in the `SubnegotiationIAC` state for any non-`SE` byte; and (c) the
buffer never grows beyond the cap plus one byte: the `SubnegotiationIAC`
recovery path appends `IAC` plus a stray byte after a single size check, so
it can exceed the cap by exactly one byte, and `process_byte` preserves the
bound `length ≤ max + 1` (together with buffer emptiness outside the
subnegotiation states) from any state satisfying it. -/
theorem c3_amended_overflow_and_bound :
    (∀ (f : FSM) (dsc : OptionDesc) (b : Nat),
      f.state = PState.subneg → f.currentOption = some dsc →
      0 < dsc.maxSubnegSize → dsc.maxSubnegSize ≤ f.subnegBuffer.length →
      b ≠ IAC →
      processByte f b =
        (⟨some ProcCode.subnegotiationOverflow, false, none⟩,
          f.changeState PState.normal)) ∧
    (∀ (f : FSM) (dsc : OptionDesc) (b : Nat),
      f.state = PState.subnegIAC → f.currentOption = some dsc →
      0 < dsc.maxSubnegSize → dsc.maxSubnegSize ≤ f.subnegBuffer.length →
      b ≠ SE →
      processByte f b =
        (⟨some ProcCode.subnegotiationOverflow, false, none⟩,
          f.changeState PState.normal)) ∧
    (∀ (f : FSM) (b : Nat), SubnegInv f → SubnegInv (processByte f b).2) := by
  refine ⟨?_, ?_, subnegInv_step⟩
  · intro f dsc b hst hopt hpos hlen hb
    simp [processByte, hst, handleStateSubneg, hopt, hb, hpos, hlen]
  · intro f dsc b hst hopt hpos hlen hb
    simp [processByte, hst, handleStateSubnegIAC, hopt, hb, hpos, hlen]

/-- The FSM of the C3 counterexample with one byte already buffered. -/
def c3FSMone : FSM := { c3FSM with subnegBuffer := [99] }

/-- Witness for `c3_amended_overflow_and_bound` at concrete inputs: with the
cap 1 already reached, a data byte in `Subnegotiation` overflows and resets;
and the buffer discipline holds across a step of the counterexample FSM. -/
theorem c3_amended_overflow_and_bound_witness :
    (processByte c3FSMone 97 =
      (⟨some ProcCode.subnegotiationOverflow, false, none⟩,
        c3FSMone.changeState PState.normal)) ∧
    SubnegInv (processByte c3FSM 255).2 :=
  ⟨c3_amended_overflow_and_bound.1 c3FSMone c3Desc 97 rfl rfl
      (by decide) (by decide) (by decide),
    c3_amended_overflow_and_bound.2.2 c3FSM 255
      ⟨Or.inl rfl, Or.inr (by decide)⟩⟩

/-! ## C9: impossible Q-Method state combinations -/

/-- A registry with a single fully supported option, id 1. -/
def c9Desc : OptionDesc := ⟨1, true, true, false, 16⟩

def c9Reg : OptionRegistry := fun i => if i = 1 then some c9Desc else none

/-- A status database holding the spec's own example of an impossible
combination: option 1 is locally `YES` with queued bit `OPPOSITE`. -/
def c9DB : StatusDB := fun i =>
  if i = 1 then ⟨⟨QState.yes, true⟩, ⟨QState.no, false⟩⟩ else OptionStatus.initial

def c9FSM : FSM := initFSM c9Reg c9DB []

/-- Claim C9 is false as stated: on the impossible combination `YES` with
queued bit `OPPOSITE` (the spec's own example), `request_option` returns
success — not `protocol_violation` — and leaves the status untouched instead
of resetting it to `NO`; `disable_option` treats the combination as plain
`YES` (pending the disable, keeping the queued bit) and also reports no
violation and no reset to `NO`. -/
theorem c9_counterexample_no_violation_no_reset :
    (requestOption c9FSM 1 Dir.local_).2.1 = none ∧
    ((requestOption c9FSM 1 Dir.local_).1.statusDB 1).loc = ⟨QState.yes, true⟩ ∧
    (disableOption c9FSM 1 Dir.local_).2.1 = none ∧
    ((disableOption c9FSM 1 Dir.local_).1.statusDB 1).loc = ⟨QState.wantno, true⟩ := by
  refine ⟨rfl, rfl, rfl, rfl⟩

/-- Claim C9 (amended): for a registered option, `request_option` and
`disable_option` never return `protocol_violation` and never reset the
status: every (state, queued) combination — including impossible ones such
as `YES` with queued bit `OPPOSITE` — is classified by its state component
into one of the six Q-Method branches (an impossible combination behaves as
its state's branch, e.g. `YES`/`OPPOSITE` is an idempotent success), so the
`protocol_violation` fall-through of the source is unreachable. -/
theorem c9_amended_no_protocol_violation (f : FSM) (opt : Nat) (d : Dir)
    (dsc : OptionDesc) (hreg : f.registry opt = some dsc) :
    (requestOption f opt d).2.1 ≠ some ProcCode.protocolViolation ∧
    (disableOption f opt d).2.1 ≠ some ProcCode.protocolViolation := by
  constructor
  · unfold requestOption
    rw [hreg]
    rcases hs : (f.statusDB opt).dir d with ⟨st, q⟩
    cases st <;> cases q <;>
      simp [DirStatus.enabled, DirStatus.disabled, DirStatus.pendingEnable,
        DirStatus.pendingDisable, DirStatus.isQueued, DirStatus.push]
  · unfold disableOption
    rw [hreg]
    rcases hs : (f.statusDB opt).dir d with ⟨st, q⟩
    cases st <;> cases q <;>
      simp [DirStatus.enabled, DirStatus.disabled, DirStatus.pendingEnable,
        DirStatus.pendingDisable, DirStatus.isQueued, DirStatus.push]

/-- Witness for `c9_amended_no_protocol_violation` at the concrete FSM of
the counterexample. -/
theorem c9_amended_no_protocol_violation_witness :
    (requestOption c9FSM 1 Dir.local_).2.1 ≠ some ProcCode.protocolViolation ∧
    (disableOption c9FSM 1 Dir.local_).2.1 ≠ some ProcCode.protocolViolation :=
  c9_amended_no_protocol_violation c9FSM 1 Dir.local_ c9Desc rfl

/-! ## C6: the outbound request_option table -/

/-- Claim C6: for a registered option, `request_option` follows the Q-Method
table: in `NO` it moves to `WANTYES`/`EMPTY` and emits the enable request
frame; in `YES`, `WANTYES`/`EMPTY` and `WANTNO`/`OPPOSITE` it is an
idempotent success (no frame, FSM unchanged); in `WANTYES`/`OPPOSITE` it
clears the queued bit; in `WANTNO`/`EMPTY` it enqueues the opposite request,
emitting no frame. -/
theorem c6_request_option_table (f : FSM) (opt : Nat) (d : Dir)
    (dsc : OptionDesc) (hreg : f.registry opt = some dsc) :
    ((f.statusDB opt).dir d = ⟨QState.no, false⟩ →
      (((requestOption f opt d).1.statusDB opt).dir d = ⟨QState.wantyes, false⟩ ∧
       (requestOption f opt d).2.1 = none ∧
       (requestOption f opt d).2.2 = some ⟨d, true, opt⟩)) ∧
    ((f.statusDB opt).dir d = ⟨QState.yes, false⟩ →
      requestOption f opt d = (f, none, none)) ∧
    ((f.statusDB opt).dir d = ⟨QState.wantyes, false⟩ →
      requestOption f opt d = (f, none, none)) ∧
    ((f.statusDB opt).dir d = ⟨QState.wantno, true⟩ →
      requestOption f opt d = (f, none, none)) ∧
    ((f.statusDB opt).dir d = ⟨QState.wantyes, true⟩ →
      (((requestOption f opt d).1.statusDB opt).dir d = ⟨QState.wantyes, false⟩ ∧
       (requestOption f opt d).2.1 = none ∧
       (requestOption f opt d).2.2 = none)) ∧
    ((f.statusDB opt).dir d = ⟨QState.wantno, false⟩ →
      (((requestOption f opt d).1.statusDB opt).dir d = ⟨QState.wantno, true⟩ ∧
       (requestOption f opt d).2.1 = none ∧
       (requestOption f opt d).2.2 = none)) := by
  refine ⟨?_, ?_, ?_, ?_, ?_, ?_⟩ <;> intro hs <;>
    simp [requestOption, hreg, hs, DirStatus.enabled, DirStatus.disabled,
      DirStatus.pendingEnable, DirStatus.pendingDisable, DirStatus.isQueued,
      DirStatus.push, DirStatus.pop, DirStatus.pendEnable,
      dbSet_same, setDir_dir_same]

/-- Witness for `c6_request_option_table`: the concrete FSM of the Q-Method
development with option 1 registered and in state `NO`. -/
def c6DB : StatusDB := fun _ => OptionStatus.initial

def c6FSM : FSM := initFSM c9Reg c6DB []

theorem c6_request_option_table_witness :
    ((c6FSM.statusDB 1).dir Dir.remote = ⟨QState.no, false⟩ →
      (((requestOption c6FSM 1 Dir.remote).1.statusDB 1).dir Dir.remote =
          ⟨QState.wantyes, false⟩ ∧
       (requestOption c6FSM 1 Dir.remote).2.1 = none ∧
       (requestOption c6FSM 1 Dir.remote).2.2 = some ⟨Dir.remote, true, 1⟩)) ∧
    (c6FSM.statusDB 1).dir Dir.remote = ⟨QState.no, false⟩ :=
  ⟨(c6_request_option_table c6FSM 1 Dir.remote c9Desc rfl).1, rfl⟩

/-! ## C4: inbound `IAC WILL id` from the `NO` state -/

/-- Claim C4: with option `id` in `NO` state for the remote direction,
a full inbound `IAC WILL id` (1) for a registered option supporting remote
leaves the option in `YES`, responds `DO id` and fires the on-enable
handler; (2) for a registered option not supporting remote leaves it in
`NO` and responds `DONT id`; (3) for an unregistered id leaves the status
database untouched (no entry created) and responds `DONT id`; and (4), (5)
an inbound `IAC WONT id` or `IAC DONT id` for an unregistered id is a
no-op (no response, no status change). -/
theorem c4_inbound_will_from_no (reg : OptionRegistry) (db : StatusDB)
    (ayt : List Nat) (i : Nat) (hno : (db i).rem = ⟨QState.no, false⟩) :
    (∀ dsc, reg i = some dsc → dsc.supportsRemote = true →
      (((processBytes (initFSM reg db ayt) [IAC, WILL, i]).1.statusDB i).rem =
          ⟨QState.yes, false⟩ ∧
       (processBytes (initFSM reg db ayt) [IAC, WILL, i]).2 =
         [⟨none, false, none⟩, ⟨none, false, none⟩,
          ⟨none, false, some (PRV.handler (HandlerEvent.enablement i Dir.remote)
            (some ⟨Dir.remote, true, i⟩))⟩] ∧
       encodeNegotiation ⟨Dir.remote, true, i⟩ = [IAC, DO, i])) ∧
    (∀ dsc, reg i = some dsc → dsc.supportsRemote = false →
      (((processBytes (initFSM reg db ayt) [IAC, WILL, i]).1.statusDB i).rem =
          ⟨QState.no, false⟩ ∧
       (processBytes (initFSM reg db ayt) [IAC, WILL, i]).2 =
         [⟨none, false, none⟩, ⟨none, false, none⟩,
          ⟨none, false, some (PRV.negotiation ⟨Dir.remote, false, i⟩)⟩] ∧
       encodeNegotiation ⟨Dir.remote, false, i⟩ = [IAC, DONT, i])) ∧
    (reg i = none →
      ((processBytes (initFSM reg db ayt) [IAC, WILL, i]).1.statusDB = db ∧
       (processBytes (initFSM reg db ayt) [IAC, WILL, i]).2 =
         [⟨none, false, none⟩, ⟨none, false, none⟩,
          ⟨none, false, some (PRV.negotiation ⟨Dir.remote, false, i⟩)⟩])) ∧
    (reg i = none →
      ((processBytes (initFSM reg db ayt) [IAC, WONT, i]).1.statusDB = db ∧
       (processBytes (initFSM reg db ayt) [IAC, WONT, i]).2 =
         [⟨none, false, none⟩, ⟨none, false, none⟩, ⟨none, false, none⟩])) ∧
    (reg i = none →
      ((processBytes (initFSM reg db ayt) [IAC, DONT, i]).1.statusDB = db ∧
       (processBytes (initFSM reg db ayt) [IAC, DONT, i]).2 =
         [⟨none, false, none⟩, ⟨none, false, none⟩, ⟨none, false, none⟩])) := by
  refine ⟨?_, ?_, ?_, ?_, ?_⟩
  · intro dsc hreg hsup
    simp [processBytes, processByte, handleStateNormal, handleStateIAC,
      handleStateOptNeg, initFSM, FSM.changeState, hreg, hno, hsup,
      negotiateDir, negotiationPRV, OptionStatus.dir, OptionStatus.setDir,
      OptionDesc.supports, DirStatus.enabled, DirStatus.disabled,
      DirStatus.pendingEnable, DirStatus.pendingDisable, DirStatus.isQueued,
      DirStatus.enable, dbSet, IAC, WILL, WONT, DO, DONT, SB, SE, NOPB, DM,
      BRK, IP, AO, AYT, EC, EL, GA, EOR, encodeNegotiation,
      makeNegotiationCommand]
  · intro dsc hreg hsup
    simp [processBytes, processByte, handleStateNormal, handleStateIAC,
      handleStateOptNeg, initFSM, FSM.changeState, hreg, hno, hsup,
      negotiateDir, negotiationPRV, OptionStatus.dir, OptionStatus.setDir,
      OptionDesc.supports, DirStatus.enabled, DirStatus.disabled,
      DirStatus.pendingEnable, DirStatus.pendingDisable, DirStatus.isQueued,
      DirStatus.enable, dbSet, IAC, WILL, WONT, DO, DONT, SB, SE, NOPB, DM,
      BRK, IP, AO, AYT, EC, EL, GA, EOR, encodeNegotiation,
      makeNegotiationCommand]
  · intro hreg
    simp [processBytes, processByte, handleStateNormal, handleStateIAC,
      handleStateOptNeg, initFSM, FSM.changeState, hreg,
      IAC, WILL, WONT, DO, DONT, SB, SE, NOPB, DM, BRK, IP, AO, AYT, EC, EL,
      GA, EOR]
  · intro hreg
    simp [processBytes, processByte, handleStateNormal, handleStateIAC,
      handleStateOptNeg, initFSM, FSM.changeState, hreg,
      IAC, WILL, WONT, DO, DONT, SB, SE, NOPB, DM, BRK, IP, AO, AYT, EC, EL,
      GA, EOR]
  · intro hreg
    simp [processBytes, processByte, handleStateNormal, handleStateIAC,
      handleStateOptNeg, initFSM, FSM.changeState, hreg,
      IAC, WILL, WONT, DO, DONT, SB, SE, NOPB, DM, BRK, IP, AO, AYT, EC, EL,
      GA, EOR]

/-- Witness for `c4_inbound_will_from_no`: the concrete registry of the
Q-Method development (option 1 registered with supports-remote) on the
all-`NO` database, plus the unregistered id 99 for the `WILL` refusal and
the `WONT`/`DONT` no-ops (scenario S5 uses the unregistered id 0x63). -/
theorem c4_inbound_will_from_no_witness :
    (((processBytes (initFSM c9Reg c6DB []) [IAC, WILL, 1]).1.statusDB 1).rem =
        ⟨QState.yes, false⟩ ∧
     (processBytes (initFSM c9Reg c6DB []) [IAC, WILL, 1]).2 =
       [⟨none, false, none⟩, ⟨none, false, none⟩,
        ⟨none, false, some (PRV.handler (HandlerEvent.enablement 1 Dir.remote)
          (some ⟨Dir.remote, true, 1⟩))⟩] ∧
     encodeNegotiation ⟨Dir.remote, true, 1⟩ = [IAC, DO, 1]) ∧
    ((processBytes (initFSM c9Reg c6DB []) [IAC, WILL, 99]).1.statusDB = c6DB ∧
     (processBytes (initFSM c9Reg c6DB []) [IAC, WILL, 99]).2 =
       [⟨none, false, none⟩, ⟨none, false, none⟩,
        ⟨none, false, some (PRV.negotiation ⟨Dir.remote, false, 99⟩)⟩]) ∧
    ((processBytes (initFSM c9Reg c6DB []) [IAC, WONT, 99]).1.statusDB = c6DB ∧
     (processBytes (initFSM c9Reg c6DB []) [IAC, WONT, 99]).2 =
       [⟨none, false, none⟩, ⟨none, false, none⟩, ⟨none, false, none⟩]) ∧
    ((processBytes (initFSM c9Reg c6DB []) [IAC, DONT, 99]).1.statusDB = c6DB ∧
     (processBytes (initFSM c9Reg c6DB []) [IAC, DONT, 99]).2 =
       [⟨none, false, none⟩, ⟨none, false, none⟩, ⟨none, false, none⟩]) :=
  ⟨(c4_inbound_will_from_no c9Reg c6DB [] 1 rfl).1 c9Desc rfl rfl,
   (c4_inbound_will_from_no c9Reg c6DB [] 99 rfl).2.2.1 rfl,
   (c4_inbound_will_from_no c9Reg c6DB [] 99 rfl).2.2.2.1 rfl,
   (c4_inbound_will_from_no c9Reg c6DB [] 99 rfl).2.2.2.2 rfl⟩

/-! ## C8: the queued-bit invariant over all reachable statuses -/

/-- The spec's Q-Method invariant for one direction's pair: the queued bit
being `OPPOSITE` implies the state is `WANTYES` or `WANTNO` (equivalently,
the queued bit is `EMPTY` whenever the state is `NO` or `YES`). -/
def InvQ (s : DirStatus) : Prop :=
  s.queued = true → s.state = QState.wantyes ∨ s.state = QState.wantno

instance (s : DirStatus) : Decidable (InvQ s) := by
  unfold InvQ
  infer_instance

/-- The invariant over the whole status database, both directions. -/
def DBInv (db : StatusDB) : Prop := ∀ i, InvQ (db i).loc ∧ InvQ (db i).rem

theorem DBInv.dirInv (h : DBInv db) (i : Nat) (d : Dir) : InvQ ((db i).dir d) := by
  cases d
  · exact (h i).1
  · exact (h i).2

theorem negotiateDir_InvQ (re sup : Bool) (s : DirStatus) (h : InvQ s) :
    InvQ (negotiateDir re sup s).1 := by
  revert h
  rcases s with ⟨st, q⟩
  cases st <;> cases q <;> cases re <;> cases sup <;> decide

theorem DBInv_dbSet (db : StatusDB) (i : Nat) (d : Dir) (v : DirStatus)
    (h : DBInv db) (hv : InvQ v) : DBInv (dbSet db i ((db i).setDir d v)) := by
  intro j
  by_cases hj : j = i
  · subst hj
    rw [dbSet_same]
    cases d
    · exact ⟨by simpa [OptionStatus.setDir] using hv,
        by simpa [OptionStatus.setDir] using (h j).2⟩
    · exact ⟨by simpa [OptionStatus.setDir] using (h j).1,
        by simpa [OptionStatus.setDir] using hv⟩
  · rw [dbSet_other _ _ _ _ hj]
    exact h j

theorem requestOption_DBInv (f : FSM) (opt : Nat) (d : Dir)
    (h : DBInv f.statusDB) : DBInv (requestOption f opt d).1.statusDB := by
  unfold requestOption
  rcases hreg : f.registry opt with _ | dsc
  · exact h
  · simp only
    rcases hsd : (f.statusDB opt).dir d with ⟨st, q⟩
    cases st <;> cases q <;>
      simp [hsd, DirStatus.enabled, DirStatus.disabled, DirStatus.pendingEnable,
        DirStatus.pendingDisable, DirStatus.isQueued, DirStatus.push,
        DirStatus.pop, DirStatus.pendEnable] <;>
      first
      | exact h
      | exact DBInv_dbSet _ _ _ _ h (by decide)

theorem disableOption_DBInv (f : FSM) (opt : Nat) (d : Dir)
    (h : DBInv f.statusDB) : DBInv (disableOption f opt d).1.statusDB := by
  unfold disableOption
  rcases hreg : f.registry opt with _ | dsc
  · exact h
  · simp only
    rcases hsd : (f.statusDB opt).dir d with ⟨st, q⟩
    cases st <;> cases q <;>
      simp [hsd, DirStatus.enabled, DirStatus.disabled, DirStatus.pendingEnable,
        DirStatus.pendingDisable, DirStatus.isQueued, DirStatus.push,
        DirStatus.pop, DirStatus.pendDisable] <;>
      first
      | exact h
      | exact DBInv_dbSet _ _ _ _ h (by decide)

theorem handleStateOptNeg_DBInv (f : FSM) (b : Nat) (h : DBInv f.statusDB) :
    DBInv (handleStateOptNeg f b).2.statusDB := by
  unfold handleStateOptNeg
  rcases f.currentCommand with _ | cmd
  · simpa [changeState_statusDB] using h
  · simp only
    rcases hreg : f.registry b with _ | dsc
    · simpa [changeState_statusDB] using h
    · simp only [changeState_statusDB]
      exact DBInv_dbSet _ _ _ _ h
        (negotiateDir_InvQ _ _ _ (h.dirInv b _))

theorem processByte_DBInv (f : FSM) (b : Nat) (h : DBInv f.statusDB) :
    DBInv (processByte f b).2.statusDB := by
  cases hf : f.state
  all_goals simp only [processByte, hf]
  · unfold handleStateNormal
    split_ifs <;> simpa [changeState_statusDB] using h
  · unfold handleStateHasCR
    split_ifs <;> simpa [changeState_statusDB] using h
  · unfold handleStateIAC
    split <;> simpa [changeState_statusDB] using h
  · exact handleStateOptNeg_DBInv f b h
  · unfold handleStateSubnegOption
    simpa [changeState_statusDB] using h
  · unfold handleStateSubneg
    rcases f.currentOption with _ | dsc
    · simpa [changeState_statusDB] using h
    · simp only
      split_ifs <;> simpa [changeState_statusDB] using h
  · unfold handleStateSubnegIAC
    rcases f.currentOption with _ | dsc
    · simpa [changeState_statusDB] using h
    · simp only
      split_ifs <;> simpa [changeState_statusDB] using h

/-- One operation of the Q-Method surface: an outbound request, an outbound
disable, or one inbound byte fed through `process_byte`. -/
inductive QOp where
  | req (opt : Nat) (d : Dir)
  | dis (opt : Nat) (d : Dir)
  | inByte (b : Nat)

/-- Apply one operation to the FSM (discarding outputs). -/
def applyQOp (f : FSM) : QOp → FSM
  | QOp.req opt d => (requestOption f opt d).1
  | QOp.dis opt d => (disableOption f opt d).1
  | QOp.inByte b => (processByte f b).2

theorem applyQOp_DBInv (f : FSM) (op : QOp) (h : DBInv f.statusDB) :
    DBInv (applyQOp f op).statusDB := by
  cases op
  · exact requestOption_DBInv f _ _ h
  · exact disableOption_DBInv f _ _ h
  · exact processByte_DBInv f _ h

theorem foldl_applyQOp_DBInv (ops : List QOp) :
    ∀ f : FSM, DBInv f.statusDB → DBInv (ops.foldl applyQOp f).statusDB := by
  induction ops with
  | nil => exact fun f h => h
  | cons op rest ih =>
      intro f h
      exact ih (applyQOp f op) (applyQOp_DBInv f op h)

/-- Claim C8: for every per-option, per-direction status reachable from the
connection-start database (all `NO`/`EMPTY`) through any sequence of
`request_option`, `disable_option` and inbound byte processing, the queued
bit is `EMPTY` whenever the state is `NO` or `YES`; equivalently, the queued
bit being `OPPOSITE` implies the state is `WANTYES` or `WANTNO`. -/
theorem c8_queued_bit_invariant (reg : OptionRegistry) (ayt : List Nat)
    (ops : List QOp) (i : Nat) (d : Dir) :
    InvQ (((ops.foldl applyQOp
      (initFSM reg (fun _ => OptionStatus.initial) ayt)).statusDB i).dir d) := by
  have h0 : DBInv (initFSM reg (fun _ => OptionStatus.initial) ayt).statusDB := by
    intro j
    constructor
    · show InvQ (OptionStatus.initial).loc
      decide
    · show InvQ (OptionStatus.initial).rem
      decide
  exact (foldl_applyQOp_DBInv ops _ h0).dirInv i d

/-! ## C5: outbound escaping never emits a bare CR or LF -/

/-- The per-byte escaping map when `BINARY` is not locally enabled:
`LF` becomes `CR LF`, `IAC` is doubled, `CR` becomes `CR NUL`, any other
byte passes through. -/
def escChunk (b : Nat) : List Nat :=
  if b = 10 then [13, 10]
  else if b = 255 then [255, 255]
  else if b = 13 then [13, 0]
  else [b]

def escByChunks : List Nat → List Nat
  | [] => []
  | b :: rest => escChunk b ++ escByChunks rest

def crOk (x y : Nat) : Prop := x = 13 → y = 10 ∨ y = 0

def lfOk (x y : Nat) : Prop := y = 10 → x = 13

theorem escape_eq_chunks (S : List Nat) :
    escapeTelnetOutput false S = escByChunks S := by
  induction S with
  | nil => rfl
  | cons b rest ih =>
      simp only [escapeTelnetOutput, escByChunks, ih]
      by_cases h10 : b = 10 <;> by_cases h255 : b = 255 <;> by_cases h13 : b = 13 <;>
        simp_all [escChunk, IAC]

theorem crOk_of_ne (x y : Nat) (h : x ≠ 13) : crOk x y := fun hx => absurd hx h

theorem lfOk_of_head_ne {l : List Nat} (x : Nat)
    (h : l.head? ≠ some 10) : ∀ y ∈ l.head?, lfOk x y := by
  intro y hy hy10
  rw [Option.mem_def, hy10] at hy
  exact absurd hy h

theorem getLast?_chunk_append {l : List Nat} (c : List Nat)     (hcl : c.getLast? ≠ some 13) (hl : l.getLast? ≠ some 13) :
    (c ++ l).getLast? ≠ some 13 := by
  cases hl' : l with
  | nil => simpa using hcl
  | cons z zs =>
      rw [List.getLast?_append_cons]
      rw [hl'] at hl
      exact hl

theorem escByChunks_props (S : List Nat) :
    List.Chain' crOk (escByChunks S) ∧
    (escByChunks S).getLast? ≠ some 13 ∧
    List.Chain' lfOk (escByChunks S) ∧
    (escByChunks S).head? ≠ some 10 := by
  induction S with
  | nil => exact ⟨List.chain'_nil, by simp [escByChunks], List.chain'_nil,
      by simp [escByChunks]⟩
  | cons b rest ih =>
      obtain ⟨ihcr, ihlast, ihlf, ihhead⟩ := ih
      simp only [escByChunks]
      unfold escChunk
      split_ifs with h10 h255 h13
      · -- chunk [13, 10]
        refine ⟨?_, ?_, ?_, by simp⟩
        · rw [List.cons_append, List.cons_append, List.nil_append,
            List.chain'_cons, List.chain'_cons']
          exact ⟨fun _ => Or.inl rfl,
            fun y _ => crOk_of_ne 10 y (by decide), ihcr⟩
        · exact getLast?_chunk_append [13, 10] (by simp) ihlast
        · rw [List.cons_append, List.cons_append, List.nil_append,
            List.chain'_cons, List.chain'_cons']
          exact ⟨fun _ => rfl, lfOk_of_head_ne 10 ihhead, ihlf⟩
      · -- chunk [255, 255]
        refine ⟨?_, ?_, ?_, by simp⟩
        · rw [List.cons_append, List.cons_append, List.nil_append,
            List.chain'_cons, List.chain'_cons']
          exact ⟨crOk_of_ne 255 255 (by decide),
            fun y _ => crOk_of_ne 255 y (by decide), ihcr⟩
        · exact getLast?_chunk_append [255, 255] (by simp) ihlast
        · rw [List.cons_append, List.cons_append, List.nil_append,
            List.chain'_cons, List.chain'_cons']
          exact ⟨fun h => absurd h (by decide), lfOk_of_head_ne 255 ihhead, ihlf⟩
      · -- chunk [13, 0]
        refine ⟨?_, ?_, ?_, by simp⟩
        · rw [List.cons_append, List.cons_append, List.nil_append,
            List.chain'_cons, List.chain'_cons']
          exact ⟨fun _ => Or.inr rfl,
            fun y _ => crOk_of_ne 0 y (by decide), ihcr⟩
        · exact getLast?_chunk_append [13, 0] (by simp) ihlast
        · rw [List.cons_append, List.cons_append, List.nil_append,
            List.chain'_cons, List.chain'_cons']
          exact ⟨fun h => absurd h (by decide), lfOk_of_head_ne 0 ihhead, ihlf⟩
      · -- chunk [b], b not 10, 255 or 13
        refine ⟨?_, ?_, ?_, by simpa using h10⟩
        · rw [List.cons_append, List.nil_append, List.chain'_cons']
          exact ⟨fun y _ => crOk_of_ne b y h13, ihcr⟩
        · exact getLast?_chunk_append [b] (by simpa using h13) ihlast
        · rw [List.cons_append, List.nil_append, List.chain'_cons']
          exact ⟨lfOk_of_head_ne b ihhead, ihlf⟩

/-- Claim C5: when `BINARY` is not locally enabled, the outbound escaping of
`write_some` maps every `IAC` to `IAC IAC`, every `LF` to `CR LF` and every
`CR` to `CR NUL` (the chunk decomposition), and consequently the escaped
output never contains a bare `CR` or a bare `LF`: adjacent pairs satisfy
`crOk` (a `CR` is immediately followed by `LF` or `NUL`) and `lfOk` (an `LF`
is immediately preceded by `CR`), the output never ends with `CR` and never
starts with `LF`. -/
theorem c5_output_escaping_no_bare_cr_lf (S : List Nat) :
    escapeTelnetOutput false S = escByChunks S ∧
    List.Chain' crOk (escapeTelnetOutput false S) ∧
    (escapeTelnetOutput false S).getLast? ≠ some 13 ∧
    List.Chain' lfOk (escapeTelnetOutput false S) ∧
    (escapeTelnetOutput false S).head? ≠ some 10 := by
  have h := escByChunks_props S
  rw [escape_eq_chunks]
  exact ⟨rfl, h.1, h.2.1, h.2.2.1, h.2.2.2⟩

/-! ## C10: window bounds of the processing loop -/

/-- An FSM with nothing registered, at connection start. -/
def c10FSM : FSM := initFSM (fun _ => none) (fun _ => OptionStatus.initial) []

/-- A stream context with the bytes `CR` `a` staged. -/
def c10Ctx : StreamCtx := ⟨[13, 97], 0, none, none, UrgentState.noUrgent, false⟩

/-- Claim C10 is false on the code: with a 1-byte application window and the
staged input `CR` `a`, the `HasCR` recovery path signals `carriage_return`
with the forward flag set, so the loop writes the reinserted `CR` and then
the forwarded byte under a single window check — the write cursor advances
to 2 in a 1-byte window and the operation completes with 2 bytes. -/
theorem c10_window_overrun_cr_plus_forward :
    (readSome c10FSM c10Ctx 1).outcome = ReadOutcome.completed none 2 ∧ 1 < 2 := by
  exact ⟨rfl, by decide⟩

/-! ## C2: AO handling during read_some -/

/-- A stream context with `IAC AO a` staged and queued outbound output. -/
def c2Ctx : StreamCtx := ⟨[IAC, AO, 97], 7, none, none, UrgentState.noUrgent, false⟩

/-- Claim C2 is false as stated in part (c): the `read_some` that consumes
`IAC AO` drains the outbound buffer and emits the Synch (parts (a) and (b)
hold), but it surfaces `abort_output` itself — completing with the signal
and the bytes accumulated so far (here zero) once the Synch write finishes —
while the next `read_some` completes normally (here one data byte, no
signal) instead of returning zero bytes with `abort_output`. -/
theorem c2_counterexample_ao_signal_on_current_read :
    (readSome c10FSM c2Ctx 16).outcome =
      ReadOutcome.completed (some ProcCode.abortOutput) 0 ∧
    (readSome c10FSM c2Ctx 16).ctx.outputSize = 0 ∧
    (readSome c10FSM c2Ctx 16).wire = synchWire ∧
    (readSome (readSome c10FSM c2Ctx 16).fsm (readSome c10FSM c2Ctx 16).ctx 16).outcome =
      ReadOutcome.completed none 1 := by
  refine ⟨rfl, rfl, rfl, rfl⟩

/-- What holds of a `read_some` run whose processing consumed an `IAC AO`:
it completes with the `abort_output` signal at the bytes accumulated so far,
the outbound staging buffer is drained, and the Synch sequence is the last
wire activity. -/
def AOResult (r : RunResult) : Prop :=
  (∃ k, r.outcome = ReadOutcome.completed (some ProcCode.abortOutput) k) ∧
  r.ctx.outputSize = 0 ∧
  ∃ pre, r.wire = pre ++ synchWire

theorem procLoop_ao (remaining : List Nat) :
    ∀ (f : FSM) (c : StreamCtx) (writePos n : Nat) (wire : List WireItem),
    (procLoop f c remaining writePos n wire false).sawAO = true →
    AOResult (procLoop f c remaining writePos n wire false) := by
  induction remaining with
  | nil =>
      intro f c writePos n wire h
      unfold procLoop at h
      simp [apply_ite RunResult.sawAO] at h
  | cons b rest ih =>
      intro f c writePos n wire h
      rw [procLoop] at h ⊢
      by_cases hwp : writePos = n
      · rw [if_pos hwp] at h ⊢
        simp [apply_ite RunResult.sawAO] at h
      · rw [if_neg hwp] at h ⊢
        rcases hpb : processByte f b with ⟨out, f1⟩
        simp only [hpb] at h ⊢
        by_cases hao : out.code = some ProcCode.abortOutput
        · rw [if_pos hao] at h ⊢
          exact ⟨⟨writePos, rfl⟩, rfl, ⟨wire, rfl⟩⟩
        · rw [if_neg hao] at h ⊢
          rcases hcode : processFsmSignals out.code writePos c with ⟨code1, writePos1, c1⟩
          simp only [hcode] at h ⊢
          cases code1 with
          | some ec => simp at h
          | none =>
              cases hresp : out.response with
              | some r =>
                  simp only [hresp] at h ⊢
                  exact ih _ _ _ _ _ h
              | none =>
                  simp only [hresp] at h ⊢
                  exact ih _ _ _ _ _ h

/-- Claim C2 (amended): for every `read_some` whose processing consumes an
inbound `IAC AO`, the operation (a) drains the outbound staging buffer,
(b) emits the Synch sequence (three NULs with the middle one urgent,
followed by `IAC DM`) as its final wire activity, and (c) surfaces the
`abort_output` completion signal on this same `read_some` once the Synch
write completes, reporting the bytes accumulated before the `AO`. -/
theorem c2_amended_ao_completion (f : FSM) (c : StreamCtx) (n : Nat)
    (h : (readSome f c n).sawAO = true) : AOResult (readSome f c n) := by
  unfold readSome at h ⊢
  by_cases hempty : c.inputBuffer = []
  · rw [if_pos hempty] at h ⊢
    cases hde : c.deferredError <;> simp [hde] at h
  · rw [if_neg hempty] at h ⊢
    cases hds : c.deferredSignal
    · simp only [hds] at h ⊢
      exact procLoop_ao _ _ _ _ _ _ h
    · simp [hds] at h

/-- Witness for `c2_amended_ao_completion` at the concrete `IAC AO` input. -/
theorem c2_amended_ao_completion_witness : AOResult (readSome c10FSM c2Ctx 16) :=
  c2_amended_ao_completion c10FSM c2Ctx 16 rfl
